import Mathlib

/-
Verification development for the mcp-host-runner repository.

The embedding models the Session and Capability-Cache Manager of
src/app/core/mcp_manager.py, the legacy manager of src/main.py, and the
rate limiter of src/app/api/middleware.py.  Python dictionaries are
modelled as association lists in insertion order; wall-clock instants are
natural numbers of seconds; every call into the external MCP client
library (process launch, initialize handshake, capability listing, tool
invocation) is an oracle argument of type Except carrying either the
outcome the library produced or the message of the exception it raised.
-/

namespace MCPHost

/-! Code-point lexicographic order on strings.  Python compares strings by
code points, and json.dumps with sort_keys sorts dictionary keys with this
order; the core String order of Lean does not reduce in the kernel, so the
order is spelled out on character lists. -/

def lexLe : List Char → List Char → Bool
  | [], _ => true
  | _ :: _, [] => false
  | a :: as, b :: bs =>
    if a.toNat < b.toNat then true
    else if b.toNat < a.toNat then false
    else lexLe as bs

def strLe (a b : String) : Bool := lexLe a.toList b.toList

/-! Python dict operations on association lists.  A Python dict holds at
most one binding per key; dictDel removes every binding of the key, which
agrees with del d[k] on such lists. -/

def dget {α : Type} : List (String × α) → String → Option α
  | [], _ => none
  | (k', v) :: rest, k => if k' = k then some v else dget rest k

def dmem {α : Type} (d : List (String × α)) (k : String) : Bool :=
  (dget d k).isSome

def dput {α : Type} : List (String × α) → String → α → List (String × α)
  | [], k, v => [(k, v)]
  | (k', v') :: rest, k, v =>
    if k' = k then (k, v) :: rest else (k', v') :: dput rest k v

def ddel {α : Type} : List (String × α) → String → List (String × α)
  | [], _ => []
  | (k', v) :: rest, k =>
    if k' = k then ddel rest k else (k', v) :: ddel rest k

/-! Data model, from src/app/models/schemas.py.  The env dict of an
MCPConfig is kept in construction (insertion) order.  Opaque structured
documents (input schemas, passthrough payloads) are carried as strings
since the system never inspects them. -/

structure MCPConfig where
  name : String
  command : String
  args : List String
  env : List (String × String)
deriving DecidableEq

structure ToolInfo where
  name : String
  description : String
  inputSchema : String
deriving DecidableEq

structure ServerInfo where
  server_name : String
  version : String
deriving DecidableEq

structure DiscoverResult where
  status : String
  tools : List ToolInfo
  server_info : Option ServerInfo
  error : Option String
deriving DecidableEq

structure CacheEntry where
  data : DiscoverResult
  cached_at : Option Nat
deriving DecidableEq

structure ServerRec where
  server_name : String
deriving DecidableEq

structure SessionMeta where
  created_at : Option Nat
  last_used : Option Nat
deriving DecidableEq

/-- Configuration fields of src/app/core/config.py read by the manager and
the middleware. -/
structure Settings where
  mcp_cache_enabled : Bool
  mcp_cache_ttl : Nat
  mcp_auto_cleanup : Bool
  mcp_session_timeout : Nat
  rate_limit_enabled : Bool
  rate_limit_per_minute : Nat
deriving DecidableEq

/-- Mutable state of MCPManager of src/app/core/mcp_manager.py: the three
dictionaries created in its constructor. -/
structure ManagerState where
  running_servers : List (String × ServerRec)
  discovered_tools_cache : List (String × CacheEntry)
  session_metadata : List (String × SessionMeta)
deriving DecidableEq

def initialState : ManagerState := ⟨[], [], []⟩

/-! Cache key, from _generate_cache_key: json.dumps(config.dict(),
sort_keys=True).  The four field names sort as args, command, env, name;
the env dict keys are emitted in sorted order.  Escaping is restricted to
the quote and the backslash, which is immaterial to the properties
proved. -/

def jsonEscape (s : String) : String :=
  s.toList.foldl
    (fun acc c =>
      if c = '"' ∨ c = '\\' then acc ++ "\\".push c else acc.push c) ""

def jsonStr (s : String) : String := "\"" ++ jsonEscape s ++ "\""

def commaSep : List String → String
  | [] => ""
  | [s] => s
  | s :: rest => s ++ ", " ++ commaSep rest

def envLe (p q : String × String) : Prop := strLe p.1 q.1 = true

instance : DecidableRel envLe := fun p q => decEq (strLe p.1 q.1) true

def sortEnv (env : List (String × String)) : List (String × String) :=
  List.insertionSort envLe env

def dumpEnv (env : List (String × String)) : String :=
  "\x7b" ++
    commaSep ((sortEnv env).map (fun p => jsonStr p.1 ++ ": " ++ jsonStr p.2)) ++
  "\x7d"

def generate_cache_key (cfg : MCPConfig) : String :=
  "\x7b" ++
    jsonStr "args" ++ ": [" ++ commaSep (cfg.args.map jsonStr) ++ "], " ++
    jsonStr "command" ++ ": " ++ jsonStr cfg.command ++ ", " ++
    jsonStr "env" ++ ": " ++ dumpEnv cfg.env ++ ", " ++
    jsonStr "name" ++ ": " ++ jsonStr cfg.name ++
  "\x7d"

/-- Direct translation of MCPManager._should_use_cache. -/
def should_use_cache (s : Settings) (cache : List (String × CacheEntry))
    (cache_key : String) (now : Nat) : Bool :=
  if !s.mcp_cache_enabled then false
  else
    match dget cache cache_key with
    | none => false
    | some entry =>
      match entry.cached_at with
      | none => false
      | some cached_time => decide (now < cached_time + s.mcp_cache_ttl)

/-- Outcome of the external discovery interaction: session open, initialize
handshake and capability listing, collapsed by the single try block of
discover_tools into either an exception message or the data it read. -/
structure DiscoverOk where
  server_name : String
  version : String
  tools : List ToolInfo
deriving DecidableEq

/-- Direct translation of MCPManager.discover_tools.  The first component
is the returned dictionary, the second the state after the call. -/
def discover_tools (s : Settings) (st : ManagerState) (cfg : MCPConfig)
    (now : Nat) (outcome : Except String DiscoverOk) :
    DiscoverResult × ManagerState :=
  let cache_key := generate_cache_key cfg
  if should_use_cache s st.discovered_tools_cache cache_key now then
    match dget st.discovered_tools_cache cache_key with
    | some entry => (entry.data, st)
    | none => (⟨"error", [], none, some "cache entry missing"⟩, st)
  else
    match outcome with
    | .error e => (⟨"error", [], none, some e⟩, st)
    | .ok ok =>
      let result : DiscoverResult :=
        ⟨"success", ok.tools, some ⟨ok.server_name, ok.version⟩, none⟩
      if !ok.tools.isEmpty && s.mcp_cache_enabled then
        (result,
          { st with
            discovered_tools_cache :=
              dput st.discovered_tools_cache cache_key ⟨result, some now⟩ })
      else
        (result, st)

/-! Tool invocation, from execute_tool_with_config and its two helpers. -/

/-- Shape of the raw object the external call_tool returns, as inspected by
_format_tool_result: a content list whose items either carry a text field
or pass through opaquely, a scalar content value, or an object with no
content attribute (stringified). -/
inductive RawContentItem
  | text (s : String)
  | other (s : String)
deriving DecidableEq

inductive RawToolResult
  | contentList (items : List RawContentItem)
  | contentScalar (s : String)
  | noContent (s : String)
deriving DecidableEq

inductive FormattedItem
  | typedText (s : String)
  | passthrough (s : String)
deriving DecidableEq

inductive ToolPayload
  | items (l : List FormattedItem)
  | scalar (s : String)
  | stringified (s : String)
deriving DecidableEq

structure ExecResult where
  status : String
  result : Option ToolPayload
  error : Option String
deriving DecidableEq

/-- Direct translation of MCPManager._format_tool_result. -/
def format_tool_result (r : RawToolResult) : ExecResult :=
  match r with
  | .contentList items =>
    ⟨"success",
      some (.items (items.map fun i =>
        match i with
        | .text s => .typedText s
        | .other s => .passthrough s)), none⟩
  | .contentScalar s => ⟨"success", some (.scalar s), none⟩
  | .noContent s => ⟨"success", some (.stringified s), none⟩

/-- Direct translation of MCPManager._cleanup_session: the close of the
session handle is best effort with errors swallowed, then the identifier
is deleted from both dictionaries when present. -/
def cleanup_session (st : ManagerState) (session_id : String) : ManagerState :=
  { st with
    running_servers := ddel st.running_servers session_id,
    session_metadata := ddel st.session_metadata session_id }

/-- Direct translation of MCPManager._execute_with_existing_session.  The
last-used touch happens before the invocation; a failing invocation lands
in the except block, which removes the session record and reports the
error. -/
def execute_with_existing_session (st : ManagerState) (session_id : String)
    (now : Nat) (callOutcome : Except String RawToolResult) :
    ExecResult × ManagerState :=
  let touched :=
    match dget st.session_metadata session_id with
    | some m =>
      { st with
        session_metadata :=
          dput st.session_metadata session_id { m with last_used := some now } }
    | none => st
  match callOutcome with
  | .ok r => (format_tool_result r, touched)
  | .error e => (⟨"error", none, some e⟩, cleanup_session touched session_id)

/-- Direct translation of MCPManager._execute_with_new_session: a transient
session is opened, initialized, used once and closed; any exception along
the way becomes an error result.  The manager state is untouched.  The ok
outcome carries the server name of the handshake and the raw invocation
result. -/
def execute_with_new_session
    (outcome : Except String (String × RawToolResult)) : ExecResult :=
  match outcome with
  | .ok (_, r) => format_tool_result r
  | .error e => ⟨"error", none, some e⟩

/-- Direct translation of MCPManager.execute_tool_with_config: dispatch on
membership of the session identifier in running_servers. -/
def execute_tool_with_config (st : ManagerState) (session_id : String)
    (existingOutcome : Except String RawToolResult)
    (newOutcome : Except String (String × RawToolResult)) (now : Nat) :
    ExecResult × ManagerState :=
  if dmem st.running_servers session_id then
    execute_with_existing_session st session_id now existingOutcome
  else
    (execute_with_new_session newOutcome, st)

/-- Direct translation of MCPManager.stop_server: a missing identifier is
reported as false without touching the state; otherwise the session is
cleaned up (close errors swallowed inside _cleanup_session) and true is
returned. -/
def stop_server (st : ManagerState) (session_id : String) :
    Bool × ManagerState :=
  if !dmem st.running_servers session_id then (false, st)
  else (true, cleanup_session st session_id)

inductive SessionStatusR
  | not_found
  | running (name : String) (created_at last_used : Option Nat)
deriving DecidableEq

/-- Direct translation of MCPManager.get_session_status. -/
def get_session_status (st : ManagerState) (session_id : String) :
    SessionStatusR :=
  match dget st.running_servers session_id with
  | none => .not_found
  | some rec =>
    let meta := (dget st.session_metadata session_id).getD ⟨none, none⟩
    .running rec.server_name meta.created_at meta.last_used

structure ActiveSession where
  session_id : String
  name : String
  created_at : Option Nat
  last_used : Option Nat
deriving DecidableEq

/-- Direct translation of MCPManager.get_active_sessions. -/
def get_active_sessions (st : ManagerState) : List ActiveSession × Nat :=
  let sessions := st.running_servers.map (fun p =>
    let meta := (dget st.session_metadata p.1).getD ⟨none, none⟩
    ActiveSession.mk p.1 p.2.server_name meta.created_at meta.last_used)
  (sessions, sessions.length)

structure Stats where
  active_sessions : Nat
  cached_tools : Nat
  cache_enabled : Bool
  auto_cleanup_enabled : Bool
deriving DecidableEq

/-- Direct translation of MCPManager.get_stats (platform fields omitted). -/
def get_stats (s : Settings) (st : ManagerState) : Stats :=
  ⟨st.running_servers.length, st.discovered_tools_cache.length,
    s.mcp_cache_enabled, s.mcp_auto_cleanup⟩

/-- Expiry test of cleanup_expired_sessions for one metadata record:
current_time - last_used greater than the session timeout, false when no
last_used value is recorded. -/
def isExpired (timeout now : Nat) (m : SessionMeta) : Bool :=
  match m.last_used with
  | some t => decide (t + timeout < now)
  | none => false

/-- Direct translation of MCPManager.cleanup_expired_sessions: a no-op when
auto cleanup is disabled; otherwise the expired identifiers are collected
from session_metadata and each is cleaned up in turn. -/
def cleanup_expired_sessions (s : Settings) (st : ManagerState) (now : Nat) :
    ManagerState :=
  if !s.mcp_auto_cleanup then st
  else
    let expired :=
      (st.session_metadata.filter
        (fun p => isExpired s.mcp_session_timeout now p.2)).map Prod.fst
    expired.foldl cleanup_session st

/-! Public operation alphabet of the core manager, for trace reasoning.
Each constructor carries the call arguments together with the oracle
outcomes of the external interactions the call performs. -/

inductive Op
  | discover (cfg : MCPConfig) (now : Nat) (outcome : Except String DiscoverOk)
  | execute (session_id : String)
      (existingOutcome : Except String RawToolResult)
      (newOutcome : Except String (String × RawToolResult)) (now : Nat)
  | stop (session_id : String)
  | status (session_id : String)
  | listActive
  | stats
  | cleanup (now : Nat)

/-- State transition of one public operation; the read-only operations
leave the state untouched. -/
def step (s : Settings) (st : ManagerState) : Op → ManagerState
  | .discover cfg now outcome => (discover_tools s st cfg now outcome).2
  | .execute session_id eo no now =>
    (execute_tool_with_config st session_id eo no now).2
  | .stop session_id => (stop_server st session_id).2
  | .status _ => st
  | .listActive => st
  | .stats => st
  | .cleanup now => cleanup_expired_sessions s st now

def runOps (s : Settings) (ops : List Op) : ManagerState :=
  ops.foldl (step s) initialState

/-! Legacy manager of src/main.py.  Its discover_tools has no TTL and no
enable flag on the cache, and its inner try swallows a failure of the
initialize handshake or of the capability listing, falling through to a
success result with zero tools; only a failure to open the session reaches
the outer except and yields an error result. -/

inductive MainOutcome
  | openFail (e : String)
  | sessionFail (e : String)
  | ok (server_name version : String) (tools : List ToolInfo)
deriving DecidableEq

structure MainState where
  discovered_tools_cache : List (String × DiscoverResult)
deriving DecidableEq

/-- Direct translation of MCPManager.discover_tools of src/main.py. -/
def mainDiscoverTools (st : MainState) (cfg : MCPConfig)
    (outcome : MainOutcome) : DiscoverResult × MainState :=
  let config_key := generate_cache_key cfg
  match dget st.discovered_tools_cache config_key with
  | some cached => (cached, st)
  | none =>
    match outcome with
    | .openFail e => (⟨"error", [], none, some e⟩, st)
    | .sessionFail _ => (⟨"success", [], none, none⟩, st)
    | .ok server_name version tools =>
      let result : DiscoverResult :=
        ⟨"success", tools, some ⟨server_name, version⟩, none⟩
      if tools.isEmpty then (result, st)
      else (result, ⟨dput st.discovered_tools_cache config_key result⟩)

/-! Rate limiter of RateLimitMiddleware.dispatch in
src/app/api/middleware.py.  Timestamps are naturals; the pruning test
current_time - timestamp less than 60 is written now < t + 60. -/

inductive RLOutcome
  | passthrough
  | rejected (status_code retry_after : Nat) (retry_after_header : String)
deriving DecidableEq

structure RLState where
  clients : List (String × List Nat)
deriving DecidableEq

/-- Direct translation of RateLimitMiddleware.dispatch, up to the forwarded
call into the rest of the application. -/
def rlDispatch (enabled : Bool) (calls_per_minute : Nat) (st : RLState)
    (client_ip : String) (now : Nat) : RLOutcome × RLState :=
  if !enabled then (.passthrough, st)
  else
    let window :=
      match dget st.clients client_ip with
      | some ts => ts.filter (fun t => decide (now < t + 60))
      | none => []
    let clients1 := dput st.clients client_ip window
    if window.length ≥ calls_per_minute then
      (.rejected 429 60 "60", ⟨clients1⟩)
    else
      (.passthrough, ⟨dput clients1 client_ip (window ++ [now])⟩)

/-- Cache store step of discover_tools: the result dictionary is recorded
under the cache key together with the current time (lines 119 to 125 of
src/app/core/mcp_manager.py). -/
def cacheStore (cache : List (String × CacheEntry)) (cache_key : String)
    (data : DiscoverResult) (now : Nat) : List (String × CacheEntry) :=
  dput cache cache_key ⟨data, some now⟩

/-- Cache consult prefix of discover_tools (lines 77 to 80): the stored
data is returned exactly when _should_use_cache accepts the key. -/
def cacheLookup (s : Settings) (cache : List (String × CacheEntry))
    (cache_key : String) (now : Nat) : Option DiscoverResult :=
  if should_use_cache s cache cache_key now then
    (dget cache cache_key).map (fun e => e.data)
  else none

/-- Request-timestamp window the rate limiter holds for a client before a
dispatch; a client with no record has the empty window. -/
def clientWindow (st : RLState) (ip : String) : List Nat :=
  match dget st.clients ip with
  | some ts => ts
  | none => []

/-- Window after the pruning step of a dispatch at the given time. -/
def prunedWindow (st : RLState) (ip : String) (now : Nat) : List Nat :=
  (clientWindow st ip).filter (fun t => decide (now < t + 60))

/-! Dictionary lemmas. -/

theorem dget_ddel {α : Type} (d : List (String × α)) (k k' : String) :
    dget (ddel d k) k' = if k' = k then none else dget d k' := by
  induction d with
  | nil => simp [ddel, dget]
  | cons hd tl ih =>
    obtain ⟨k0, v0⟩ := hd
    simp only [ddel]
    by_cases h0 : k0 = k
    · rw [if_pos h0, ih]
      by_cases h1 : k' = k
      · simp [h1]
      · have h2 : k0 ≠ k' := by
          rw [h0] ; exact fun he => h1 he.symm
        simp [dget, h1, h2]
    · rw [if_neg h0]
      simp only [dget]
      by_cases h2 : k0 = k'
      · have h3 : ¬ k' = k := fun he => h0 (h2.trans he)
        simp [h2, h3]
      · simp [h2, ih]

theorem dget_dput {α : Type} (d : List (String × α)) (k : String) (v : α)
    (k' : String) :
    dget (dput d k v) k' = if k' = k then some v else dget d k' := by
  induction d with
  | nil =>
    simp only [dput, dget]
    by_cases h : k = k'
    · simp [h]
    · have h2 : ¬ k' = k := fun he => h he.symm
      simp [h, h2]
  | cons hd tl ih =>
    obtain ⟨k0, v0⟩ := hd
    simp only [dput]
    by_cases h0 : k0 = k
    · rw [if_pos h0]
      simp only [dget]
      by_cases h1 : k = k'
      · simp [h1]
      · have h2 : ¬ k' = k := fun he => h1 he.symm
        have h3 : ¬ k0 = k' := h0 ▸ h1
        simp [h1, h2, h3]
    · rw [if_neg h0]
      simp only [dget]
      by_cases h2 : k0 = k'
      · have h3 : ¬ k' = k := fun he => h0 (h2.trans he)
        simp [h2, h3]
      · simp [h2, ih]

theorem dget_mem {α : Type} {d : List (String × α)} {k : String} {v : α}
    (h : dget d k = some v) : (k, v) ∈ d := by
  induction d with
  | nil => simp [dget] at h
  | cons hd tl ih =>
    obtain ⟨k0, v0⟩ := hd
    by_cases h0 : k0 = k
    · subst h0
      simp [dget] at h
      simp [h]
    · simp [dget, h0] at h
      exact List.mem_cons_of_mem _ (ih h)

theorem mem_dget_of_nodup {α : Type} {d : List (String × α)}
    (hnd : (d.map Prod.fst).Nodup) {k : String} {v : α} (h : (k, v) ∈ d) :
    dget d k = some v := by
  induction d with
  | nil => simp at h
  | cons hd tl ih =>
    obtain ⟨k0, v0⟩ := hd
    rw [List.map_cons, List.nodup_cons] at hnd
    rcases List.mem_cons.mp h with h | h
    · rw [Prod.mk.injEq] at h
      simp [dget, h.1.symm, h.2]
    · have hk : k0 ≠ k := by
        intro he
        apply hnd.1
        rw [he]
        exact List.mem_map.mpr ⟨(k, v), h, rfl⟩
      simp [dget, hk]
      exact ih hnd.2 h

/-! Order lemmas for the code-point lexicographic order. -/

theorem lexLe_total (a b : List Char) : lexLe a b = true ∨ lexLe b a = true := by
  induction a generalizing b with
  | nil => left ; rfl
  | cons x xs ih =>
    cases b with
    | nil => right ; rfl
    | cons y ys =>
      by_cases h1 : x.toNat < y.toNat
      · left ; simp [lexLe, h1]
      · by_cases h2 : y.toNat < x.toNat
        · right ; simp [lexLe, h2]
        · rcases ih ys with h | h
          · left ; simp [lexLe, h1, h2, h]
          · right ; simp [lexLe, h1, h2, h]

theorem lexLe_trans {a b c : List Char} (hab : lexLe a b = true)
    (hbc : lexLe b c = true) : lexLe a c = true := by
  induction a generalizing b c with
  | nil => rfl
  | cons x xs ih =>
    cases b with
    | nil => simp [lexLe] at hab
    | cons y ys =>
      cases c with
      | nil => simp [lexLe] at hbc
      | cons z zs =>
        simp only [lexLe] at hab hbc ⊢
        by_cases h1 : x.toNat < y.toNat
        · by_cases h2 : y.toNat < z.toNat
          · simp [show x.toNat < z.toNat by omega]
          · by_cases h3 : z.toNat < y.toNat
            · simp [h2, h3] at hbc
            · simp [show x.toNat < z.toNat by omega]
        · by_cases h4 : y.toNat < x.toNat
          · simp [h1, h4] at hab
          · by_cases h2 : y.toNat < z.toNat
            · simp [show x.toNat < z.toNat by omega]
            · by_cases h3 : z.toNat < y.toNat
              · simp [h2, h3] at hbc
              · have h5 : ¬ x.toNat < z.toNat := by omega
                have h6 : ¬ z.toNat < x.toNat := by omega
                simp [h1, h4] at hab
                simp [h2, h3] at hbc
                simp [h5, h6]
                exact ih hab hbc

theorem lexLe_antisymm {a b : List Char} (hab : lexLe a b = true)
    (hba : lexLe b a = true) : a = b := by
  induction a generalizing b with
  | nil =>
    cases b with
    | nil => rfl
    | cons y ys => simp [lexLe] at hba
  | cons x xs ih =>
    cases b with
    | nil => simp [lexLe] at hab
    | cons y ys =>
      simp only [lexLe] at hab hba
      by_cases h1 : x.toNat < y.toNat
      · simp [show ¬ y.toNat < x.toNat by omega, h1] at hba
      · by_cases h2 : y.toNat < x.toNat
        · simp [h1, h2] at hab
        · simp [h1, h2] at hab hba
          have hx : x = y := Char.eq_of_val_eq (UInt32.ext (by
            have h3 : x.toNat = y.toNat := by omega
            simpa [Char.toNat] using h3))
          rw [hx, ih hab hba]

theorem strLe_total (a b : String) : strLe a b = true ∨ strLe b a = true :=
  lexLe_total a.toList b.toList

theorem strLe_trans {a b c : String} (hab : strLe a b = true)
    (hbc : strLe b c = true) : strLe a c = true :=
  lexLe_trans hab hbc

theorem strLe_antisymm {a b : String} (hab : strLe a b = true)
    (hba : strLe b a = true) : a = b := by
  have h := lexLe_antisymm hab hba
  cases a ; cases b
  exact congrArg String.mk h

/-! Permutation invariance of the sorted env encoding. -/

instance : IsTotal (String × String) envLe :=
  ⟨fun p q => strLe_total p.1 q.1⟩

instance : IsTrans (String × String) envLe where
  trans _ _ _ hab hbc := strLe_trans hab hbc

/-- Strict key order on env bindings; vacuously antisymmetric, since two
bindings below each other would have equal keys. -/
def envLt (p q : String × String) : Prop := envLe p q ∧ p.1 ≠ q.1

instance : IsAntisymm (String × String) envLt :=
  ⟨fun _ _ hpq hqp => absurd (strLe_antisymm hpq.1 hqp.1) hpq.2⟩

theorem sortEnv_perm (env : List (String × String)) :
    (sortEnv env).Perm env :=
  List.perm_insertionSort envLe env

theorem sortEnv_sorted (env : List (String × String)) :
    List.Sorted envLe (sortEnv env) :=
  List.sorted_insertionSort envLe env

theorem sortEnv_sorted_strict (env : List (String × String))
    (hnd : (env.map Prod.fst).Nodup) :
    List.Sorted envLt (sortEnv env) := by
  have hnd2 : ((sortEnv env).map Prod.fst).Nodup :=
    (((sortEnv_perm env).map Prod.fst).nodup_iff).mpr hnd
  exact (sortEnv_sorted env).and (List.pairwise_map.mp hnd2)

theorem sortEnv_eq_of_perm {e1 e2 : List (String × String)}
    (h : e1.Perm e2) (hnd : (e1.map Prod.fst).Nodup) :
    sortEnv e1 = sortEnv e2 := by
  have hnd2 : (e2.map Prod.fst).Nodup :=
    ((h.map Prod.fst).nodup_iff).mp hnd
  have hp : (sortEnv e1).Perm (sortEnv e2) :=
    (sortEnv_perm e1).trans (h.trans (sortEnv_perm e2).symm)
  exact List.eq_of_perm_of_sorted hp
    (sortEnv_sorted_strict e1 hnd) (sortEnv_sorted_strict e2 hnd2)

/-! Frame lemmas for the manager operations. -/

theorem discover_tools_frame (s : Settings) (st : ManagerState)
    (cfg : MCPConfig) (now : Nat) (o : Except String DiscoverOk) :
    (discover_tools s st cfg now o).2.running_servers = st.running_servers ∧
    (discover_tools s st cfg now o).2.session_metadata = st.session_metadata := by
  dsimp only [discover_tools]
  repeat' split <;> try exact ⟨rfl, rfl⟩

theorem foldl_cleanup_dget (l : List String) (st : ManagerState) (k : String) :
    dget (l.foldl cleanup_session st).running_servers k =
      (if k ∈ l then none else dget st.running_servers k) ∧
    dget (l.foldl cleanup_session st).session_metadata k =
      (if k ∈ l then none else dget st.session_metadata k) := by
  induction l generalizing st with
  | nil => simp
  | cons a t ih =>
    simp only [List.foldl_cons, List.mem_cons]
    have h1 := (ih (cleanup_session st a)).1
    have h2 := (ih (cleanup_session st a)).2
    constructor
    · rw [h1]
      by_cases hk : k ∈ t
      · simp [hk]
      · by_cases ha : k = a
        · simp [hk, ha, cleanup_session, dget_ddel]
        · simp [hk, ha, cleanup_session, dget_ddel]
    · rw [h2]
      by_cases hk : k ∈ t
      · simp [hk]
      · by_cases ha : k = a
        · simp [hk, ha, cleanup_session, dget_ddel]
        · simp [hk, ha, cleanup_session, dget_ddel]

theorem foldl_cleanup_running_nil (l : List String) (st : ManagerState)
    (h : st.running_servers = []) :
    (l.foldl cleanup_session st).running_servers = [] := by
  induction l generalizing st with
  | nil => exact h
  | cons a t ih => exact ih _ (by simp [cleanup_session, h, ddel])

theorem step_preserves_empty (s : Settings) (st : ManagerState) (op : Op)
    (h : st.running_servers = []) : (step s st op).running_servers = [] := by
  cases op with
  | discover cfg now o =>
    rw [step, (discover_tools_frame s st cfg now o).1, h]
  | execute sid eo no now =>
    have hm : dmem st.running_servers sid = false := by
      rw [dmem, h] ; rfl
    rw [step]
    unfold execute_tool_with_config
    rw [hm]
    simpa using h
  | stop sid =>
    have hm : dmem st.running_servers sid = false := by
      rw [dmem, h] ; rfl
    rw [step]
    unfold stop_server
    rw [hm]
    simpa using h
  | status sid => exact h
  | listActive => exact h
  | stats => exact h
  | cleanup now =>
    rw [step]
    unfold cleanup_expired_sessions
    split
    · exact h
    · exact foldl_cleanup_running_nil _ _ h

theorem runOps_running_nil (s : Settings) (ops : List Op) :
    (runOps s ops).running_servers = [] := by
  unfold runOps
  suffices h : ∀ st : ManagerState, st.running_servers = [] →
      (ops.foldl (step s) st).running_servers = [] from h initialState rfl
  induction ops with
  | nil => exact fun _ h => h
  | cons op rest ih =>
    exact fun st h => ih _ (step_preserves_empty s st op h)

/-- C1: starting from a freshly constructed manager, no public operation
inserts into running_servers, so after any sequence of public operations
the running-servers registry is empty, get_session_status answers
not_found for every identifier, stop_server returns false and leaves the
state unchanged, and execute_tool_with_config always takes the new-session
branch, making the session-reuse branch unreachable. -/
theorem registry_never_populated (s : Settings) (ops : List Op)
    (sid : String) (eo : Except String RawToolResult)
    (no : Except String (String × RawToolResult)) (now : Nat) :
    (runOps s ops).running_servers = []
    ∧ get_session_status (runOps s ops) sid = .not_found
    ∧ stop_server (runOps s ops) sid = (false, runOps s ops)
    ∧ execute_tool_with_config (runOps s ops) sid eo no now
        = (execute_with_new_session no, runOps s ops) := by
  have h := runOps_running_nil s ops
  have hm : dmem (runOps s ops).running_servers sid = false := by
    rw [dmem, h] ; rfl
  refine ⟨h, ?_, ?_, ?_⟩
  · unfold get_session_status
    rw [h]
    rfl
  · simp [stop_server, hm]
  · simp [execute_tool_with_config, hm]

/-- C2: when a session record exists for an identifier and the invocation
against the reused session fails, the record is removed from both
running_servers and session_metadata before the error result is returned,
and an immediately following execute call under the same identifier takes
the no-existing-session path. -/
theorem reused_session_failure_self_heals (st : ManagerState) (sid : String)
    (now : Nat) (e : String) (no : Except String (String × RawToolResult))
    (h : dmem st.running_servers sid = true) :
    (execute_tool_with_config st sid (.error e) no now).1
        = ⟨"error", none, some e⟩
    ∧ dget (execute_tool_with_config st sid (.error e) no now).2.running_servers
        sid = none
    ∧ dget (execute_tool_with_config st sid (.error e) no now).2.session_metadata
        sid = none
    ∧ ∀ (eo2 : Except String RawToolResult)
        (no2 : Except String (String × RawToolResult)) (now2 : Nat),
        execute_tool_with_config
            (execute_tool_with_config st sid (.error e) no now).2 sid eo2 no2
            now2
          = (execute_with_new_session no2,
              (execute_tool_with_config st sid (.error e) no now).2) := by
  have hmain : execute_tool_with_config st sid (.error e) no now
      = execute_with_existing_session st sid now (.error e) := by
    simp [execute_tool_with_config, h]
  rw [hmain]
  have hrun :
      dget (execute_with_existing_session st sid now (.error e)).2.running_servers
        sid = none := by
    simp [execute_with_existing_session, cleanup_session, dget_ddel]
  have hmeta :
      dget (execute_with_existing_session st sid now (.error e)).2.session_metadata
        sid = none := by
    simp [execute_with_existing_session, cleanup_session, dget_ddel]
  refine ⟨?_, hrun, hmeta, ?_⟩
  · simp [execute_with_existing_session]
  · intro eo2 no2 now2
    have hm2 :
        dmem (execute_with_existing_session st sid now (.error e)).2.running_servers
          sid = false := by
      rw [dmem, hrun] ; rfl
    simp [execute_tool_with_config, hm2]

theorem reused_session_failure_self_heals_witness :
    dmem (ManagerState.mk [("s1", ⟨"srv"⟩)] []
        [("s1", ⟨some 0, some 0⟩)]).running_servers "s1" = true
    ∧ (execute_tool_with_config
        (ManagerState.mk [("s1", ⟨"srv"⟩)] [] [("s1", ⟨some 0, some 0⟩)])
        "s1" (.error "boom") (.error "open failed") 5).1
        = ⟨"error", none, some "boom"⟩ :=
  ⟨by decide,
    (reused_session_failure_self_heals
      (ManagerState.mk [("s1", ⟨"srv"⟩)] [] [("s1", ⟨some 0, some 0⟩)])
      "s1" 5 "boom" (.error "open failed") (by decide)).1⟩

/-- C7: an execute call whose session identifier has no existing record
runs on a transient session and leaves the manager state, in particular
the running-servers registry, unchanged: no long-lived record is ever
registered for that identifier by the invocation path. -/
theorem execute_without_record_is_one_shot (st : ManagerState) (sid : String)
    (eo : Except String RawToolResult)
    (no : Except String (String × RawToolResult)) (now : Nat)
    (h : dmem st.running_servers sid = false) :
    execute_tool_with_config st sid eo no now
        = (execute_with_new_session no, st)
    ∧ (execute_tool_with_config st sid eo no now).2.running_servers
        = st.running_servers := by
  have h1 : execute_tool_with_config st sid eo no now
      = (execute_with_new_session no, st) := by
    simp [execute_tool_with_config, h]
  exact ⟨h1, by rw [h1]⟩

theorem execute_without_record_is_one_shot_witness :
    dmem (initialState).running_servers "s9" = false
    ∧ execute_tool_with_config initialState "s9" (.error "unused")
        (.ok ("srv", .contentScalar "42")) 7
        = (execute_with_new_session (.ok ("srv", .contentScalar "42")),
            initialState) :=
  ⟨by decide,
    (execute_without_record_is_one_shot initialState "s9" (.error "unused")
      (.ok ("srv", .contentScalar "42")) 7 (by decide)).1⟩

/-- C10: stopping an identifier with no live session returns false without
an error and leaves the state unchanged, and a second stop of the same
identifier behaves as the not-found case. -/
theorem stop_missing_reports_not_found (st : ManagerState) (sid : String) :
    (dmem st.running_servers sid = false → stop_server st sid = (false, st))
    ∧ (stop_server (stop_server st sid).2 sid).1 = false
    ∧ (stop_server (stop_server st sid).2 sid).2 = (stop_server st sid).2 := by
  constructor
  · intro h
    simp [stop_server, h]
  · cases hm : dmem st.running_servers sid with
    | false =>
      have h2 : (stop_server st sid).2 = st := by simp [stop_server, hm]
      rw [h2]
      simp [stop_server, hm]
    | true =>
      have h2 : (stop_server st sid).2 = cleanup_session st sid := by
        simp [stop_server, hm]
      have h3 : dmem (cleanup_session st sid).running_servers sid = false := by
        simp [dmem, cleanup_session, dget_ddel]
      rw [h2]
      simp [stop_server, h3]

theorem stop_missing_reports_not_found_witness :
    dmem (initialState).running_servers "sX" = false
    ∧ stop_server initialState "sX" = (false, initialState) :=
  ⟨by decide,
    (stop_missing_reports_not_found initialState "sX").1 (by decide)⟩

/-- C4: two launch specs whose name, command, argument list and
environment map have identical values produce the same canonical cache
key, regardless of the construction order of the environment entries. -/
theorem cache_key_order_independent (c1 c2 : MCPConfig)
    (hname : c1.name = c2.name) (hcmd : c1.command = c2.command)
    (hargs : c1.args = c2.args) (henv : c1.env.Perm c2.env)
    (hnd : (c1.env.map Prod.fst).Nodup) :
    generate_cache_key c1 = generate_cache_key c2 := by
  unfold generate_cache_key dumpEnv
  rw [hname, hcmd, hargs, sortEnv_eq_of_perm henv hnd]

theorem cache_key_order_independent_witness :
    ((MCPConfig.mk "fs" "npx" ["-y"] [("B", "2"), ("A", "1")]).env.Perm
      (MCPConfig.mk "fs" "npx" ["-y"] [("A", "1"), ("B", "2")]).env)
    ∧ generate_cache_key (MCPConfig.mk "fs" "npx" ["-y"] [("B", "2"), ("A", "1")])
        = generate_cache_key (MCPConfig.mk "fs" "npx" ["-y"] [("A", "1"), ("B", "2")]) :=
  ⟨List.Perm.swap ("A", "1") ("B", "2") [],
    cache_key_order_independent _ _ rfl rfl rfl
      (List.Perm.swap ("A", "1") ("B", "2") []) (by decide)⟩

/-- C5: after a store at time cachedAt, a lookup with caching enabled hits
and returns the stored data while now is below cachedAt plus the ttl, and
misses once now has reached cachedAt plus the ttl; an absent key always
misses, and with caching disabled every lookup misses. -/
theorem cache_lookup_ttl (s : Settings) (cache : List (String × CacheEntry))
    (key : String) (data : DiscoverResult) (cachedAt now : Nat) :
    (s.mcp_cache_enabled = true → now < cachedAt + s.mcp_cache_ttl →
      cacheLookup s (cacheStore cache key data cachedAt) key now = some data)
    ∧ (cachedAt + s.mcp_cache_ttl ≤ now →
      cacheLookup s (cacheStore cache key data cachedAt) key now = none)
    ∧ (dget cache key = none → cacheLookup s cache key now = none)
    ∧ (s.mcp_cache_enabled = false → cacheLookup s cache key now = none) := by
  have hget : dget (cacheStore cache key data cachedAt) key
      = some ⟨data, some cachedAt⟩ := by
    simp [cacheStore, dget_dput]
  refine ⟨?_, ?_, ?_, ?_⟩
  · intro hen hfresh
    simp [cacheLookup, should_use_cache, hen, hget, hfresh]
  · intro hstale
    have hnf : ¬ now < cachedAt + s.mcp_cache_ttl := by omega
    simp [cacheLookup, should_use_cache, hget, hnf]
  · intro habs
    simp [cacheLookup, should_use_cache, habs]
  · intro hdis
    simp [cacheLookup, should_use_cache, hdis]

theorem cache_lookup_ttl_witness :
    ((Settings.mk true 10 true 300 true 60).mcp_cache_enabled = true
      ∧ (3 : Nat) < 0 + (Settings.mk true 10 true 300 true 60).mcp_cache_ttl)
    ∧ cacheLookup (Settings.mk true 10 true 300 true 60)
        (cacheStore [] "k" ⟨"success", [], none, none⟩ 0) "k" 3
        = some ⟨"success", [], none, none⟩ :=
  ⟨⟨rfl, by decide⟩,
    (cache_lookup_ttl (Settings.mk true 10 true 300 true 60) [] "k"
      ⟨"success", [], none, none⟩ 0 3).1 rfl (by decide)⟩

/-- C8: with the rate limiter enabled, a dispatch prunes the timestamps
older than 60 time units from the client's window; when the pruned count
is below the limit the request is admitted and its timestamp appended,
when the pruned count has reached the limit (as after N admitted requests
within a 60-second span) the request is rejected with status 429 and a
retry-after hint of 60, and once every recorded timestamp is at least 60
units old a new request from the client is admitted again. -/
theorem rate_limiter_window (limit : Nat) (st : RLState) (ip : String)
    (now : Nat) :
    ((prunedWindow st ip now).length < limit →
      (rlDispatch true limit st ip now).1 = .passthrough
      ∧ dget (rlDispatch true limit st ip now).2.clients ip
          = some (prunedWindow st ip now ++ [now]))
    ∧ (limit ≤ (prunedWindow st ip now).length →
      (rlDispatch true limit st ip now).1 = .rejected 429 60 "60"
      ∧ dget (rlDispatch true limit st ip now).2.clients ip
          = some (prunedWindow st ip now))
    ∧ (0 < limit → (∀ t ∈ clientWindow st ip, t + 60 ≤ now) →
      (rlDispatch true limit st ip now).1 = .passthrough) := by
  have hw : (match dget st.clients ip with
      | some ts => ts.filter (fun t => decide (now < t + 60))
      | none => []) = prunedWindow st ip now := by
    unfold prunedWindow clientWindow
    cases dget st.clients ip <;> rfl
  refine ⟨?_, ?_, ?_⟩
  · intro hlt
    have hcond : ¬ (prunedWindow st ip now).length ≥ limit := by omega
    constructor
    · simp [rlDispatch, hw, hcond]
    · simp [rlDispatch, hw, hcond, dget_dput]
  · intro hge
    have hcond : (prunedWindow st ip now).length ≥ limit := hge
    constructor
    · simp [rlDispatch, hw, hcond]
    · simp [rlDispatch, hw, hcond, dget_dput]
  · intro hpos hold
    have hnil : prunedWindow st ip now = [] := by
      apply List.filter_eq_nil_iff.mpr
      intro a ha
      have h60 := hold a ha
      simp
      omega
    have hcond : ¬ (prunedWindow st ip now).length ≥ limit := by
      rw [hnil]
      simp
      omega
    simp [rlDispatch, hw, hcond]

theorem rate_limiter_window_witness :
    2 ≤ (prunedWindow ⟨[("c", [0, 1])]⟩ "c" 1).length
    ∧ (rlDispatch true 2 ⟨[("c", [0, 1])]⟩ "c" 1).1 = .rejected 429 60 "60" :=
  ⟨by decide,
    ((rate_limiter_window 2 ⟨[("c", [0, 1])]⟩ "c" 1).2.1 (by decide)).1⟩

/-- C9: one run of the expiry sweep is a no-op when auto cleanup is
disabled; when enabled it removes, from both registries, every session
whose recorded last-used time is more than the session timeout before
now, and leaves every other metadata record (younger than the timeout, or
without a last-used time) present with the same value and the identifier's
running-servers binding untouched. -/
theorem expiry_sweep_correct (s : Settings) (st : ManagerState) (now : Nat)
    (hnd : (st.session_metadata.map Prod.fst).Nodup) :
    (s.mcp_auto_cleanup = false → cleanup_expired_sessions s st now = st)
    ∧ (s.mcp_auto_cleanup = true → ∀ sid m,
        dget st.session_metadata sid = some m →
        (∀ t, m.last_used = some t → t + s.mcp_session_timeout < now →
          dget (cleanup_expired_sessions s st now).session_metadata sid = none
          ∧ dget (cleanup_expired_sessions s st now).running_servers sid = none)
        ∧ ((∀ t, m.last_used = some t → ¬ t + s.mcp_session_timeout < now) →
          dget (cleanup_expired_sessions s st now).session_metadata sid = some m
          ∧ dget (cleanup_expired_sessions s st now).running_servers sid
              = dget st.running_servers sid)) := by
  constructor
  · intro h
    simp [cleanup_expired_sessions, h]
  · intro hauto sid m hget
    have hclean : cleanup_expired_sessions s st now
        = ((st.session_metadata.filter
            (fun p => isExpired s.mcp_session_timeout now p.2)).map
            Prod.fst).foldl cleanup_session st := by
      simp [cleanup_expired_sessions, hauto]
    constructor
    · intro t hlu hexp
      have hmem : sid ∈ (st.session_metadata.filter
          (fun p => isExpired s.mcp_session_timeout now p.2)).map Prod.fst := by
        refine List.mem_map.mpr
          ⟨(sid, m), List.mem_filter.mpr ⟨dget_mem hget, ?_⟩, rfl⟩
        simp [isExpired, hlu, hexp]
      rw [hclean]
      refine ⟨(foldl_cleanup_dget _ st sid).2.trans ?_,
        (foldl_cleanup_dget _ st sid).1.trans ?_⟩ <;> simp [hmem]
    · intro hyoung
      have hnmem : sid ∉ (st.session_metadata.filter
          (fun p => isExpired s.mcp_session_timeout now p.2)).map Prod.fst := by
        intro hmem
        rcases List.mem_map.mp hmem with ⟨p, hpf, hps⟩
        rcases List.mem_filter.mp hpf with ⟨hpm, hpe⟩
        obtain ⟨k0, v0⟩ := p
        dsimp at hps
        subst hps
        have hv : v0 = m := by
          have hdg := mem_dget_of_nodup hnd hpm
          rw [hget] at hdg
          injection hdg with hv
          exact hv.symm
        dsimp only at hpe
        rw [hv] at hpe
        cases hml : m.last_used with
        | none => simp [isExpired, hml] at hpe
        | some t =>
          simp only [isExpired, hml, decide_eq_true_eq] at hpe
          exact hyoung t hml hpe
      rw [hclean]
      refine ⟨(foldl_cleanup_dget _ st sid).2.trans ?_,
        (foldl_cleanup_dget _ st sid).1.trans ?_⟩ <;> simp [hnmem, hget]

theorem expiry_sweep_correct_witness :
    ((ManagerState.mk [("a", ⟨"srv"⟩)] []
        [("a", ⟨some 0, some 0⟩), ("b", ⟨some 0, some 400⟩)]).session_metadata.map
        Prod.fst).Nodup
    ∧ dget (cleanup_expired_sessions (Settings.mk true 3600 true 300 true 60)
        (ManagerState.mk [("a", ⟨"srv"⟩)] []
          [("a", ⟨some 0, some 0⟩), ("b", ⟨some 0, some 400⟩)])
        400).session_metadata "a" = none :=
  ⟨by decide,
    ((((expiry_sweep_correct (Settings.mk true 3600 true 300 true 60)
      (ManagerState.mk [("a", ⟨"srv"⟩)] []
        [("a", ⟨some 0, some 0⟩), ("b", ⟨some 0, some 400⟩)])
      400 (by decide)).2 rfl "a" ⟨some 0, some 0⟩ (by decide)).1 0 rfl
        (by decide)).1)⟩

/-- C3 counterexample: in the legacy manager of src/main.py, a failure of
the initialize handshake or of the capability listing after the session
opened is swallowed by the inner try block, and discover_tools returns a
success result with zero tools rather than a status error result. -/
theorem main_discover_handshake_failure_cx :
    (mainDiscoverTools ⟨[]⟩ (MCPConfig.mk "fs" "npx" [] [])
        (.sessionFail "handshake failed")).1.status ≠ "error"
    ∧ (mainDiscoverTools ⟨[]⟩ (MCPConfig.mk "fs" "npx" [] [])
        (.sessionFail "handshake failed")).1
        = ⟨"success", [], none, none⟩ := by
  constructor
  · decide
  · rfl

/-- C3 amended: in the core manager, any failure while opening the
session, performing the initialize handshake or listing the capabilities
makes discover_tools return a status error result carrying the message,
raising nothing and leaving the state, hence the capability cache,
unchanged; in the legacy manager of src/main.py the same holds for a
failure to open the session, while a failure of the handshake or of the
listing after the session opened yields a success result with zero tools,
likewise raising nothing and caching nothing. -/
theorem discover_failure_returns_error_uncached (s : Settings)
    (st : ManagerState) (cfg : MCPConfig) (now : Nat) (e : String)
    (hmiss : should_use_cache s st.discovered_tools_cache
        (generate_cache_key cfg) now = false) :
    discover_tools s st cfg now (.error e) = (⟨"error", [], none, some e⟩, st)
    ∧ ∀ (mst : MainState) (cfg2 : MCPConfig) (e2 : String),
      dget mst.discovered_tools_cache (generate_cache_key cfg2) = none →
      mainDiscoverTools mst cfg2 (.openFail e2)
          = (⟨"error", [], none, some e2⟩, mst)
      ∧ mainDiscoverTools mst cfg2 (.sessionFail e2)
          = (⟨"success", [], none, none⟩, mst) := by
  constructor
  · simp [discover_tools, hmiss]
  · intro mst cfg2 e2 habs
    constructor <;> simp [mainDiscoverTools, habs]

theorem discover_failure_returns_error_uncached_witness :
    should_use_cache (Settings.mk true 3600 true 300 true 60)
        (initialState).discovered_tools_cache
        (generate_cache_key (MCPConfig.mk "fs" "npx" [] [])) 0 = false
    ∧ discover_tools (Settings.mk true 3600 true 300 true 60) initialState
        (MCPConfig.mk "fs" "npx" [] []) 0 (.error "spawn failed")
        = (⟨"error", [], none, some "spawn failed"⟩, initialState) :=
  ⟨rfl,
    (discover_failure_returns_error_uncached
      (Settings.mk true 3600 true 300 true 60) initialState
      (MCPConfig.mk "fs" "npx" [] []) 0 "spawn failed" rfl).1⟩

/-- C6 counterexample: with an expired cache entry already present under
the canonical key, a discovery that completes with zero capabilities
reports success and stores nothing, so the stale entry is still present
under that key afterward, contradicting the claim that no entry for the
key is present in the cache after such a call. -/
theorem discover_empty_stale_entry_cx :
    (discover_tools (Settings.mk true 10 true 300 true 60)
        (ManagerState.mk []
          [(generate_cache_key (MCPConfig.mk "n" "c" [] []),
            ⟨⟨"success", [⟨"t", "", ""⟩], some ⟨"srv", "1"⟩, none⟩, some 0⟩)]
          [])
        (MCPConfig.mk "n" "c" [] []) 100 (.ok ⟨"srv", "1", []⟩)).1.status
        = "success"
    ∧ dget (discover_tools (Settings.mk true 10 true 300 true 60)
        (ManagerState.mk []
          [(generate_cache_key (MCPConfig.mk "n" "c" [] []),
            ⟨⟨"success", [⟨"t", "", ""⟩], some ⟨"srv", "1"⟩, none⟩, some 0⟩)]
          [])
        (MCPConfig.mk "n" "c" [] []) 100 (.ok ⟨"srv", "1", []⟩)).2.discovered_tools_cache
        (generate_cache_key (MCPConfig.mk "n" "c" [] [])) ≠ none := by
  constructor
  · rfl
  · decide

/-- C6 amended: a discovery that completes (past a cache miss) with zero
capabilities reports success and stores nothing: the manager state, in
particular the capability cache, is exactly as before the call, so a key
absent from the cache beforehand is still absent afterward; only
discoveries returning a non-empty capability list are ever stored. -/
theorem discover_empty_never_stored (s : Settings) (st : ManagerState)
    (cfg : MCPConfig) (now : Nat) (sn v : String)
    (hmiss : should_use_cache s st.discovered_tools_cache
        (generate_cache_key cfg) now = false) :
    (discover_tools s st cfg now (.ok ⟨sn, v, []⟩)).1.status = "success"
    ∧ (discover_tools s st cfg now (.ok ⟨sn, v, []⟩)).2 = st := by
  constructor <;> simp [discover_tools, hmiss]

theorem discover_empty_never_stored_witness :
    should_use_cache (Settings.mk true 3600 true 300 true 60)
        (initialState).discovered_tools_cache
        (generate_cache_key (MCPConfig.mk "n" "c" [] [])) 0 = false
    ∧ (discover_tools (Settings.mk true 3600 true 300 true 60) initialState
        (MCPConfig.mk "n" "c" [] []) 0 (.ok ⟨"srv", "1", []⟩)).2
        = initialState :=
  ⟨rfl,
    (discover_empty_never_stored (Settings.mk true 3600 true 300 true 60)
      initialState (MCPConfig.mk "n" "c" [] []) 0 "srv" "1" rfl).2⟩

end MCPHost
